import Mathlib

/-!
Shallow embedding of `depres.py`: the `Constraints` class, the `dep_dag`
resolution function and the fixtures `g1`/`g2`.

Python dicts held by `Constraints` objects are modelled by a heap
(`St.dicts`): a `Constraints` value stores three *references* (indices)
into that heap, so Python aliasing (`c.run = parent_constraints.run`)
becomes sharing of an index.  `Node` objects are likewise heap-allocated
(`St.nodes`); Python object identity (`is`) becomes equality of node ids.
-/

namespace Depres

/-- Edge/dependency types, from `(RUN, BUILD, LINK, TEST, INCLUDE) = (0, 1, 2, 3, 4)`. -/
def RUN : Nat := 0
def BUILD : Nat := 1
def LINK : Nat := 2
def TEST : Nat := 3
def INCLUDE : Nat := 4

/-- A Python dict from names to heap node ids, as an insertion-ordered
association list (keys are unique by construction in the code paths used). -/
abbrev Dict := List (String × Nat)

/-- `name in d` / `d[name]` for a python dict: first (unique) matching key. -/
def dictFind : Dict → String → Option Nat
  | [], _ => none
  | (k, v) :: rest, name => if k = name then some v else dictFind rest name

/-- `d[name] = v` for a key known to be absent: insertion appends. -/
def dictInsert (d : Dict) (name : String) (v : Nat) : Dict :=
  d ++ [(name, v)]

/-- `d[name] = v` in general: replace in place if present, else append
(Python dict update keeps the original key position). -/
def dictSet : Dict → String → Nat → Dict
  | [], name, v => [(name, v)]
  | (k, w) :: rest, name, v =>
    if k = name then (k, v) :: rest else (k, w) :: dictSet rest name v

/-- A heap-allocated `Node` object: its name and its `deps` dict
(name → node id).  A node's `deps` dict is never aliased, so it is stored
inline rather than in the dict heap. -/
structure NodeData where
  name : String
  deps : Dict
deriving Repr, DecidableEq

/-- The heap: constraint dicts and nodes, addressed by index. -/
structure St where
  dicts : List Dict
  nodes : List NodeData
deriving Repr, DecidableEq

def emptySt : St := ⟨[], []⟩

/-- Allocate a fresh empty dict (`{}`), returning its reference. -/
def allocDict (st : St) : Nat × St :=
  (st.dicts.length, ⟨st.dicts ++ [[]], st.nodes⟩)

/-- Dereference a dict. -/
def getDict (st : St) (i : Nat) : Dict :=
  st.dicts.getD i []

/-- Overwrite the dict stored at reference `i`. -/
def setDict (st : St) (i : Nat) (d : Dict) : St :=
  ⟨st.dicts.set i d, st.nodes⟩

/-- Allocate `Node(name)` with empty deps, returning its id. -/
def allocNode (st : St) (name : String) : Nat × St :=
  (st.nodes.length, ⟨st.dicts, st.nodes ++ [⟨name, []⟩]⟩)

def nodeData (st : St) (i : Nat) : NodeData :=
  st.nodes.getD i ⟨"", []⟩

/-- `node.name`. -/
def nodeName (st : St) (i : Nat) : String :=
  (nodeData st i).name

/-- `n[name] = dep` (`Node.__setitem__`). -/
def setNodeDep (st : St) (i : Nat) (name : String) (dep : Nat) : St :=
  ⟨st.dicts, st.nodes.set i ⟨(nodeData st i).name, dictSet (nodeData st i).deps name dep⟩⟩

/-- A `Constraints` object: three references into the dict heap. -/
structure Constraints where
  run : Nat
  link : Nat
  build : Nat
deriving Repr, DecidableEq

/-- `Constraints()`: three fresh empty dicts. -/
def newConstraints (st : St) : Constraints × St :=
  let (r, st) := allocDict st
  let (l, st) := allocDict st
  let (b, st) := allocDict st
  (⟨r, l, b⟩, st)

/-- `Constraints.get(name, deptypes)`: walk `[(RUN, run), (LINK, link),
(BUILD, build)]` and return the entry of the first group whose deptype is
in `deptypes` and which contains `name`. -/
def cGet (st : St) (c : Constraints) (name : String) (deptypes : List Nat) : Option Nat :=
  match (if RUN ∈ deptypes then dictFind (getDict st c.run) name else none) with
  | some v => some v
  | none =>
    match (if LINK ∈ deptypes then dictFind (getDict st c.link) name else none) with
    | some v => some v
    | none =>
      if BUILD ∈ deptypes then dictFind (getDict st c.build) name else none

/-- One iteration of the loop body of `Constraints.add` for a selected
group: assert identity on collision, insert when absent.  `none` models
the `assert` failing. -/
def cAddOne (st : St) (d : Nat) (name : String) (item : Nat) : Option St :=
  match dictFind (getDict st d) name with
  | some v => if v = item then some st else none
  | none => some (setDict st d (dictInsert (getDict st d) name item))

/-- The loop of `Constraints.add` over an explicit list of selected groups. -/
def cAddList : List Nat → St → String → Nat → Option St
  | [], st, _, _ => some st
  | d :: ds, st, name, item =>
    match cAddOne st d name item with
    | some st => cAddList ds st name item
    | none => none

/-- The groups of `[(RUN, run), (LINK, link), (BUILD, build)]` whose
deptype occurs in `deptypes`, in that order. -/
def selDicts (c : Constraints) (deptypes : List Nat) : List Nat :=
  (if RUN ∈ deptypes then [c.run] else [])
    ++ (if LINK ∈ deptypes then [c.link] else [])
    ++ (if BUILD ∈ deptypes then [c.build] else [])

/-- `Constraints.add(item, deptypes)`. -/
def cAdd (st : St) (c : Constraints) (item : Nat) (deptypes : List Nat) : Option St :=
  cAddList (selDicts c deptypes) st (nodeName st item) item

/-- An input `Package` tree: a name and an insertion-ordered mapping from
dependency packages to their edge-type lists.  The algorithm reads only
names and deps, so sharing of `Package` objects in the fixtures is
represented by duplicating the (identical) subtree. -/
inductive Package where
  | mk (name : String) (deps : List (Package × List Nat))

def Package.name : Package → String
  | .mk n _ => n

def Package.deps : Package → List (Package × List Nat)
  | .mk _ d => d

/-- The first loop of `dep_dag`: `shared_run = {}` (a single fresh empty
dict), reassigned to `parent_constraints.run` whenever some dependency's
deptypes contain both RUN and BUILD. -/
def computeSharedRun (pc : Constraints) (deps : List (Package × List Nat)) (st : St) :
    Nat × St :=
  let (fresh, st) := allocDict st
  (if deps.any (fun pd => RUN ∈ pd.2 ∧ BUILD ∈ pd.2) then pc.run else fresh, st)

/-- The unused `shared_build = {}` allocation in `dep_dag`. -/
def allocSharedBuild (st : St) : Nat × St :=
  allocDict st

/-- Construction of the child `Constraints` `c` in `dep_dag` for an
unresolved dependency: `Constraints()` then the run/link reassignments. -/
def childConstraints (st : St) (pc : Constraints) (sharedRun : Nat) (deptypes : List Nat) :
    Constraints × St :=
  let (c, st) := newConstraints st
  let c :=
    if RUN ∈ deptypes then { c with run := pc.run }
    else if BUILD ∈ deptypes then { c with run := sharedRun }
    else c
  let c := if LINK ∈ deptypes then { c with link := pc.link } else c
  (c, st)

mutual

/-- `dep_dag(package, parent_constraints)`: returns the id of the produced
`Node` and the final heap; `none` models an `assert` failure inside
`Constraints.add`. -/
def depDag (pkg : Package) (pc : Constraints) (st : St) : Option (Nat × St) :=
  match pkg with
  | .mk name deps =>
    let (n, st) := allocNode st name
    let (sharedRun, st) := computeSharedRun pc deps st
    let (_, st) := allocSharedBuild st
    match depLoop deps pc sharedRun n st with
    | some st => some (n, st)
    | none => none

/-- The second loop of `dep_dag`: resolve each dependency (via
`parent_constraints.get`, or recursion plus `parent_constraints.add`) and
store it in the node's deps. -/
def depLoop (deps : List (Package × List Nat)) (pc : Constraints) (sharedRun : Nat)
    (n : Nat) (st : St) : Option St :=
  match deps with
  | [] => some st
  | (p, deptypes) :: rest =>
    match cGet st pc p.name deptypes with
    | some r => depLoop rest pc sharedRun n (setNodeDep st n p.name r)
    | none =>
      let (c, st) := childConstraints st pc sharedRun deptypes
      match depDag p c st with
      | some (r, st) =>
        match cAdd st pc r deptypes with
        | some st => depLoop rest pc sharedRun n (setNodeDep st n p.name r)
        | none => none
      | none => none

end

mutual

/-- Height of a package tree: 1 for the node plus the maximal height of a
child; the recursion depth `dep_dag` reaches on the tree. -/
def pkgHeight : Package → Nat
  | .mk _ deps => 1 + pkgHeightList deps

/-- Maximal height of the packages of a deps list. -/
def pkgHeightList : List (Package × List Nat) → Nat
  | [] => 0
  | (p, _) :: rest => max (pkgHeight p) (pkgHeightList rest)

end

/-- The dependency loop of `dep_dag`, parametrised by the recursive call
(`recur`); structurally recursive on the deps list, so it computes by
kernel reduction. -/
def depLoopG (recur : Package → Constraints → St → Option (Option (Nat × St))) :
    List (Package × List Nat) → Constraints → Nat → Nat → St → Option (Option St)
  | [], _, _, _, st => some (some st)
  | (p, deptypes) :: rest, pc, sharedRun, n, st =>
    match cGet st pc p.name deptypes with
    | some r => depLoopG recur rest pc sharedRun n (setNodeDep st n p.name r)
    | none =>
      let (c, st) := childConstraints st pc sharedRun deptypes
      match recur p c st with
      | none => none
      | some none => some none
      | some (some (r, st)) =>
        match cAdd st pc r deptypes with
        | some st => depLoopG recur rest pc sharedRun n (setNodeDep st n p.name r)
        | none => some none

/-- Fuel-indexed operational version of `depDag`: the outer `Option` is
`none` exactly when the recursion depth exceeds the fuel, the inner
`Option` models the `assert` as in `depDag`.  Structurally recursive on
the fuel, so it computes by kernel reduction. -/
def depDagF : Nat → Package → Constraints → St → Option (Option (Nat × St))
  | 0, _, _, _ => none
  | fuel + 1, .mk name deps, pc, st =>
    let (n, st) := allocNode st name
    let (sharedRun, st) := computeSharedRun pc deps st
    let (_, st) := allocSharedBuild st
    match depLoopG (depDagF fuel) deps pc sharedRun n st with
    | none => none
    | some none => some none
    | some (some st) => some (some (n, st))

/-! ### Fixtures

`g1` and `g2` from the source.  The shared `Package` objects of the
fixtures (e.g. `p3` under both `p2` and `p4`) are duplicated as subtrees;
`dep_dag` reads only names and deps of packages, so this is
observationally identical. -/

section Fixtures

/-- `g1()`. -/
def g1 : Package :=
  let p3 : Package := .mk "p3" []
  let p2 : Package := .mk "p2" [(p3, [RUN])]
  let p4 : Package := .mk "p4" [(p3, [RUN])]
  let p7 : Package := .mk "p7" []
  let p5 : Package := .mk "p5" [(p7, [RUN])]
  let p6 : Package := .mk "p6" [(p7, [RUN])]
  let p11 : Package := .mk "p11" []
  let p9 : Package := .mk "p9" [(p11, [LINK])]
  let p10 : Package := .mk "p10" [(p11, [LINK])]
  let p12 : Package := .mk "p12" [(p9, [LINK]), (p7, [RUN])]
  let p8 : Package := .mk "p8" [(p12, [BUILD]), (p9, [LINK]), (p10, [LINK])]
  .mk "p1" [(p2, [RUN]), (p4, [RUN]), (p5, [BUILD]), (p6, [BUILD]),
            (p8, [LINK]), (p11, [LINK])]

/-- `g2()`. -/
def g2 : Package :=
  let p9 : Package := .mk "p9" []
  let p2 : Package := .mk "p2" [(p9, [LINK])]
  let p4 : Package := .mk "p4" []
  let p3 : Package := .mk "p3" [(p4, [RUN])]
  let p5 : Package := .mk "p5" [(p4, [RUN])]
  let p7 : Package := .mk "p7" [(p9, [LINK])]
  let p6 : Package := .mk "p6" [(p4, [RUN]), (p7, [LINK])]
  let p8 : Package := .mk "p8" [(p7, [LINK])]
  .mk "p1" [(p2, [BUILD]), (p3, [RUN, BUILD]), (p5, [RUN]), (p6, [LINK, BUILD]),
            (p8, [RUN, LINK]), (p9, [LINK])]

/-- `dep_dag(pkg, Constraints())` on a fresh heap, as in the tests. -/
def runDepDag (pkg : Package) : Option (Nat × St) :=
  let (c, st) := newConstraints emptySt
  depDag pkg c st

/-- Follow a path of dependency names from a node (`g['p8']['p9']...`),
returning the reached node id. -/
def nodeAt (st : St) (root : Nat) (path : List String) : Option Nat :=
  path.foldl (fun acc nm => acc.bind (fun i => dictFind (nodeData st i).deps nm)) (some root)

/-- The node id reached from the root of `dep_dag`'s output along `path`. -/
def resAt (res : Option (Nat × St)) (path : List String) : Option Nat :=
  match res with
  | some (r, st) => nodeAt st r path
  | none => none

/-- `depDagF` on a fresh heap. -/
def runF (fuel : Nat) (pkg : Package) : Option (Option (Nat × St)) :=
  let (c, st) := newConstraints emptySt
  depDagF fuel pkg c st

/-- `resAt` lifted to `depDagF` results. -/
def resAtF (res : Option (Option (Nat × St))) (path : List String) : Option Nat :=
  match res with
  | some (some (r, st)) => nodeAt st r path
  | _ => none

/-- `dep_dag(g1(), Constraints())`. -/
def g1Res : Option (Nat × St) := runDepDag g1

/-- `dep_dag(g2(), Constraints())`. -/
def g2Res : Option (Nat × St) := runDepDag g2

end Fixtures

/-! ### Observation apparatus for comparing two outputs

Node ids depend on allocation order, so outputs of two runs are compared
through a canonical renaming: a depth-first traversal from the root with
deps visited in name order assigns canonical indices; two results with
equal canonical graphs have the same names, shapes and sharing pattern. -/

section Canon

/-- Lexicographic comparison on character lists by code point. -/
def charsLe : List Char → List Char → Bool
  | [], _ => true
  | _ :: _, [] => false
  | a :: as, b :: bs =>
    if a.val.toNat < b.val.toNat then true
    else if b.val.toNat < a.val.toNat then false
    else charsLe as bs

/-- Lexicographic string comparison (total order used only for the
canonical renaming). -/
def strLe (a b : String) : Bool := charsLe a.data b.data

/-- Insert into a list of `(name, id)` pairs keeping names sorted. -/
def insertSorted : (String × Nat) → List (String × Nat) → List (String × Nat)
  | x, [] => [x]
  | x, y :: ys => if strLe x.1 y.1 then x :: y :: ys else y :: insertSorted x ys

/-- Sort `(name, id)` pairs by name. -/
def sortByName (l : List (String × Nat)) : List (String × Nat) :=
  l.foldr insertSorted []

/-- Depth-first preorder of node ids reachable from the worklist, deps in
name order; `fuel` bounds the number of steps. -/
def dfsOrder (st : St) : Nat → List Nat → List Nat → List Nat
  | 0, _, seen => seen.reverse
  | _ + 1, [], seen => seen.reverse
  | fuel + 1, i :: rest, seen =>
    if i ∈ seen then dfsOrder st fuel rest seen
    else dfsOrder st fuel ((sortByName (nodeData st i).deps).map (fun p => p.2) ++ rest)
      (i :: seen)

/-- Enough DFS fuel for any heap: one step per worklist entry ever pushed. -/
def dfsFuel (st : St) : Nat :=
  1 + (st.nodes.map (fun nd => nd.deps.length)).sum + st.nodes.length

/-- Canonical form of a `dep_dag` result: reachable nodes in canonical
order, each as its name plus its name-sorted deps with canonical ids.
Equal canonical forms mean equal names, shapes and sharing patterns. -/
def canonGraph (res : Option (Nat × St)) : Option (List (String × List (String × Nat))) :=
  match res with
  | none => none
  | some (r, st) =>
    let order := dfsOrder st (dfsFuel st) [r] []
    some (order.map (fun i =>
      ((nodeData st i).name,
        (sortByName (nodeData st i).deps).map (fun p => (p.1, order.indexOf p.2)))))

/-- `canonGraph` lifted to `depDagF` results. -/
def canonGraphF (res : Option (Option (Nat × St))) :
    Option (List (String × List (String × Nat))) :=
  match res with
  | some r => canonGraph r
  | none => none

mutual

/-- The same package tree with every deps mapping iterated in reversed
order. -/
def revPkg : Package → Package
  | .mk n deps => (revDepsList deps).reverse |> .mk n

/-- Pointwise `revPkg` over a deps list. -/
def revDepsList : List (Package × List Nat) → List (Package × List Nat)
  | [] => []
  | (p, dts) :: rest => (revPkg p, dts) :: revDepsList rest

end

end Canon

section OrderCex

/-- Leaf package named `x`. -/
def cexX : Package := .mk "x" []

/-- `A`, with `x` as a RUN dependency. -/
def cexA : Package := .mk "A" [(cexX, [RUN])]

/-- `B`, with `x` as a LINK dependency. -/
def cexB : Package := .mk "B" [(cexX, [LINK])]

/-- `C`, with `x` as a RUN and LINK dependency. -/
def cexC : Package := .mk "C" [(cexX, [RUN, LINK])]

/-- Root where deps are iterated in the order `A`, `B`, `C`. -/
def cexP1 : Package := .mk "P" [(cexA, [RUN]), (cexB, [LINK]), (cexC, [RUN, LINK])]

/-- The same root with its deps iterated in the order `C`, `B`, `A`. -/
def cexP2 : Package := .mk "P" [(cexC, [RUN, LINK]), (cexB, [LINK]), (cexA, [RUN])]

end OrderCex

section SpecSide

/-- The lookup procedure as the spec words it: consult the categories in
the fixed priority order RUN, LINK, BUILD and return the entry of the
first category that is both contained in `edgeTypes` and holds an entry
for `name`; absent if no category satisfies both, never combining
categories.  Stated separately from `cGet` (which is translated from the
code) to compare the two. -/
def lookupSpec (st : St) (c : Constraints) (name : String) (edgeTypes : List Nat) :
    Option Nat :=
  if RUN ∈ edgeTypes ∧ (dictFind (getDict st c.run) name).isSome then
    dictFind (getDict st c.run) name
  else if LINK ∈ edgeTypes ∧ (dictFind (getDict st c.link) name).isSome then
    dictFind (getDict st c.link) name
  else if BUILD ∈ edgeTypes ∧ (dictFind (getDict st c.build) name).isSome then
    dictFind (getDict st c.build) name
  else none

end SpecSide

section ReversedFixtures

/-- `g1` with every deps mapping written in reversed iteration order. -/
def g1rev : Package :=
  let p3 : Package := .mk "p3" []
  let p2 : Package := .mk "p2" [(p3, [RUN])]
  let p4 : Package := .mk "p4" [(p3, [RUN])]
  let p7 : Package := .mk "p7" []
  let p5 : Package := .mk "p5" [(p7, [RUN])]
  let p6 : Package := .mk "p6" [(p7, [RUN])]
  let p11 : Package := .mk "p11" []
  let p9 : Package := .mk "p9" [(p11, [LINK])]
  let p10 : Package := .mk "p10" [(p11, [LINK])]
  let p12 : Package := .mk "p12" [(p7, [RUN]), (p9, [LINK])]
  let p8 : Package := .mk "p8" [(p10, [LINK]), (p9, [LINK]), (p12, [BUILD])]
  .mk "p1" [(p11, [LINK]), (p8, [LINK]), (p6, [BUILD]), (p5, [BUILD]),
            (p4, [RUN]), (p2, [RUN])]

/-- `g2` with every deps mapping written in reversed iteration order. -/
def g2rev : Package :=
  let p9 : Package := .mk "p9" []
  let p2 : Package := .mk "p2" [(p9, [LINK])]
  let p4 : Package := .mk "p4" []
  let p3 : Package := .mk "p3" [(p4, [RUN])]
  let p5 : Package := .mk "p5" [(p4, [RUN])]
  let p7 : Package := .mk "p7" [(p9, [LINK])]
  let p6 : Package := .mk "p6" [(p7, [LINK]), (p4, [RUN])]
  let p8 : Package := .mk "p8" [(p7, [LINK])]
  .mk "p1" [(p9, [LINK]), (p8, [RUN, LINK]), (p6, [LINK, BUILD]), (p5, [RUN]),
            (p3, [RUN, BUILD]), (p2, [BUILD])]

end ReversedFixtures

/-! ### The fuel-indexed version computes `depDag` -/

section Equiv

theorem pkgHeight_pos (pkg : Package) : 1 ≤ pkgHeight pkg := by
  cases pkg with
  | mk name deps => simp [pkgHeight]

theorem pkgHeightList_cons (p : Package) (dts : List Nat)
    (rest : List (Package × List Nat)) :
    pkgHeightList ((p, dts) :: rest) = max (pkgHeight p) (pkgHeightList rest) := by
  simp [pkgHeightList]

/-- With the recursive call already known to agree, the parametrised loop
agrees with `depLoop`. -/
theorem depLoopG_eq_depLoop (fuel : Nat)
    (ihDag : ∀ pkg pc st, pkgHeight pkg ≤ fuel →
      depDagF fuel pkg pc st = some (depDag pkg pc st)) :
    ∀ deps pc sharedRun n st, pkgHeightList deps ≤ fuel →
      depLoopG (depDagF fuel) deps pc sharedRun n st =
        some (depLoop deps pc sharedRun n st) := by
  intro deps
  induction deps with
  | nil => intro pc sharedRun n st _; simp [depLoopG, depLoop]
  | cons hd rest ih =>
    intro pc sharedRun n st h
    obtain ⟨p, deptypes⟩ := hd
    rw [pkgHeightList_cons] at h
    have hp : pkgHeight p ≤ fuel := le_trans (le_max_left _ _) h
    have hrest : pkgHeightList rest ≤ fuel := le_trans (le_max_right _ _) h
    rw [depLoopG, depLoop]
    cases hg : cGet st pc p.name deptypes with
    | some r => exact ih pc sharedRun n (setNodeDep st n p.name r) hrest
    | none =>
      simp only
      rw [ihDag p _ _ hp]
      cases hd : depDag p (childConstraints st pc sharedRun deptypes).1
          (childConstraints st pc sharedRun deptypes).2 with
      | none => rfl
      | some rs =>
        obtain ⟨r, st'⟩ := rs
        simp only
        cases ha : cAdd st' pc r deptypes with
        | none => rfl
        | some st'' => exact ih pc sharedRun n (setNodeDep st'' n p.name r) hrest

/-- C9 engine: with fuel at least the height of the package tree, the
fuel-indexed recursion never exhausts its fuel and computes exactly
`depDag`. -/
theorem depDagF_eq_depDag :
    ∀ fuel pkg pc st, pkgHeight pkg ≤ fuel →
      depDagF fuel pkg pc st = some (depDag pkg pc st) := by
  intro fuel
  induction fuel with
  | zero =>
    intro pkg pc st h
    exact absurd (le_trans (pkgHeight_pos pkg) h) (by simp)
  | succ f ihf =>
    intro pkg pc st h
    cases pkg with
    | mk name deps =>
      have hdeps : pkgHeightList deps ≤ f := by
        simp [pkgHeight] at h
        omega
      rw [depDagF, depDag]
      cases hA : allocNode st name with
      | mk n st1 =>
        cases hS : computeSharedRun pc deps st1 with
        | mk sharedRun st2 =>
          cases hB : allocSharedBuild st2 with
          | mk b st3 =>
            simp only [hS, hB]
            rw [depLoopG_eq_depLoop f ihf deps pc sharedRun n st3 hdeps]
            cases depLoop deps pc sharedRun n st3 with
            | none => rfl
            | some st' => rfl

/-- Transfer of path observations from `depDag` to the computable
`depDagF`. -/
theorem resAt_run_eq (pkg : Package) (fuel : Nat) (h : pkgHeight pkg ≤ fuel)
    (path : List String) :
    resAt (runDepDag pkg) path = resAtF (runF fuel pkg) path := by
  unfold runDepDag runF
  cases hN : newConstraints emptySt with
  | mk c st0 =>
    simp only
    rw [depDagF_eq_depDag fuel pkg c st0 h]
    cases depDag pkg c st0 with
    | none => rfl
    | some rs => obtain ⟨r, st⟩ := rs; rfl

/-- Transfer of the canonical form from `depDag` to the computable
`depDagF`. -/
theorem canon_run_eq (pkg : Package) (fuel : Nat) (h : pkgHeight pkg ≤ fuel) :
    canonGraph (runDepDag pkg) = canonGraphF (runF fuel pkg) := by
  unfold runDepDag runF
  cases hN : newConstraints emptySt with
  | mk c st0 =>
    simp only
    rw [depDagF_eq_depDag fuel pkg c st0 h]
    rfl

end Equiv

/-! ### Dict-heap lemmas and the behaviour of `Constraints.add` -/

section AddLemmas

theorem getDict_setDict (st : St) (i j : Nat) (d : Dict) :
    getDict (setDict st i d) j =
      if i = j ∧ i < st.dicts.length then d else getDict st j := by
  simp only [getDict, setDict, List.getD_eq_getElem?_getD, List.getElem?_set]
  by_cases hij : i = j
  · subst hij
    by_cases hlen : i < st.dicts.length
    · simp [hlen]
    · simp [hlen, List.getElem?_eq_none (by omega : st.dicts.length ≤ i)]
  · simp [hij]

theorem setDict_dicts_length (st : St) (i : Nat) (d : Dict) :
    (setDict st i d).dicts.length = st.dicts.length := by
  simp [setDict]

theorem setDict_nodes (st : St) (i : Nat) (d : Dict) :
    (setDict st i d).nodes = st.nodes := rfl

theorem dictFind_insert_self (l : Dict) (nm : String) (v : Nat)
    (h : dictFind l nm = none) : dictFind (dictInsert l nm v) nm = some v := by
  induction l with
  | nil => simp [dictInsert, dictFind]
  | cons x rest ih =>
    obtain ⟨k, w⟩ := x
    rw [dictFind] at h
    by_cases hk : k = nm
    · simp [hk] at h
    · rw [dictInsert] at ih ⊢
      rw [List.cons_append, dictFind]
      simp only [hk, if_false]
      exact ih (by simpa [dictFind, hk] using h)

theorem cAddOne_find_some (st : St) (d : Nat) (nm : String) (item v : Nat)
    (h : dictFind (getDict st d) nm = some v) :
    cAddOne st d nm item = if v = item then some st else none := by
  unfold cAddOne
  rw [h]

theorem cAddOne_find_none (st : St) (d : Nat) (nm : String) (item : Nat)
    (h : dictFind (getDict st d) nm = none) :
    cAddOne st d nm item = some (setDict st d (dictInsert (getDict st d) nm item)) := by
  unfold cAddOne
  rw [h]

theorem cAddOne_none_iff (st : St) (d : Nat) (nm : String) (item : Nat) :
    cAddOne st d nm item = none ↔
      ∃ v, dictFind (getDict st d) nm = some v ∧ v ≠ item := by
  cases h : dictFind (getDict st d) nm with
  | none => rw [cAddOne_find_none st d nm item h]; simp
  | some v =>
    rw [cAddOne_find_some st d nm item v h]
    by_cases hv : v = item <;> simp [hv]

theorem cAddOne_some_parts (st st' : St) (d : Nat) (nm : String) (item : Nat)
    (h : cAddOne st d nm item = some st') :
    st'.dicts.length = st.dicts.length ∧ st'.nodes = st.nodes ∧
      (∀ e, e ≠ d → getDict st' e = getDict st e) := by
  cases hf : dictFind (getDict st d) nm with
  | some v =>
    rw [cAddOne_find_some st d nm item v hf] at h
    by_cases hv : v = item
    · rw [if_pos hv] at h
      injection h with h
      subst h
      exact ⟨rfl, rfl, fun e _ => rfl⟩
    · rw [if_neg hv] at h
      exact absurd h (by simp)
  | none =>
    rw [cAddOne_find_none st d nm item hf] at h
    injection h with h
    subst h
    refine ⟨setDict_dicts_length _ _ _, setDict_nodes _ _ _, fun e he => ?_⟩
    rw [getDict_setDict, if_neg]
    exact fun hc => he hc.1.symm

theorem cAddOne_post (st st' : St) (d : Nat) (nm : String) (item : Nat)
    (hd : d < st.dicts.length) (h : cAddOne st d nm item = some st') :
    dictFind (getDict st' d) nm = some item := by
  cases hf : dictFind (getDict st d) nm with
  | some v =>
    rw [cAddOne_find_some st d nm item v hf] at h
    by_cases hv : v = item
    · rw [if_pos hv] at h
      injection h with h
      subst h
      rw [hf, hv]
    · rw [if_neg hv] at h
      exact absurd h (by simp)
  | none =>
    rw [cAddOne_find_none st d nm item hf] at h
    injection h with h
    subst h
    rw [getDict_setDict, if_pos ⟨rfl, hd⟩]
    exact dictFind_insert_self _ _ _ hf

theorem cAddOne_preserves_item (st st' : St) (e d : Nat) (nm : String) (item : Nat)
    (h : cAddOne st e nm item = some st')
    (hit : dictFind (getDict st d) nm = some item) :
    dictFind (getDict st' d) nm = some item := by
  by_cases hed : e = d
  · subst hed
    rw [cAddOne_find_some st e nm item item hit, if_pos rfl] at h
    injection h with h
    subst h
    exact hit
  · rw [(cAddOne_some_parts st st' e nm item h).2.2 d (fun hh => hed hh.symm)]
    exact hit

theorem cAddOne_bad_iff (st st' : St) (e d : Nat) (nm : String) (item : Nat)
    (h : cAddOne st e nm item = some st') :
    ((∃ v, dictFind (getDict st' d) nm = some v ∧ v ≠ item) ↔
      (∃ v, dictFind (getDict st d) nm = some v ∧ v ≠ item)) := by
  by_cases hed : e = d
  · subst hed
    cases hf : dictFind (getDict st e) nm with
    | some v =>
      rw [cAddOne_find_some st e nm item v hf] at h
      by_cases hv : v = item
      · rw [if_pos hv] at h
        injection h with h
        subst h
        rw [hf]
      · rw [if_neg hv] at h
        exact absurd h (by simp)
    | none =>
      rw [cAddOne_find_none st e nm item hf] at h
      injection h with h
      subst h
      rw [getDict_setDict]
      by_cases hlen : e < st.dicts.length
      · rw [if_pos ⟨rfl, hlen⟩]
        rw [dictFind_insert_self _ _ _ hf]
        simp [hf]
      · rw [if_neg (fun hc => hlen hc.2)]
        simp [hf]
  · rw [(cAddOne_some_parts st st' e nm item h).2.2 d (fun hh => hed hh.symm)]

theorem cAddList_none_iff (ds : List Nat) (st : St) (nm : String) (item : Nat) :
    cAddList ds st nm item = none ↔
      ∃ d ∈ ds, ∃ v, dictFind (getDict st d) nm = some v ∧ v ≠ item := by
  induction ds generalizing st with
  | nil => simp [cAddList]
  | cons d ds ih =>
    rw [cAddList]
    cases h : cAddOne st d nm item with
    | none =>
      constructor
      · intro _
        exact ⟨d, List.mem_cons_self d ds, (cAddOne_none_iff st d nm item).mp h⟩
      · intro _; rfl
    | some st1 =>
      rw [ih st1]
      simp only [List.mem_cons]
      constructor
      · rintro ⟨d', hm, hb⟩
        exact ⟨d', Or.inr hm, (cAddOne_bad_iff st st1 d d' nm item h).mp hb⟩
      · rintro ⟨d', hm, hb⟩
        rcases hm with rfl | hm
        · exact absurd ((cAddOne_none_iff st d' nm item).mpr hb) (by simp [h])
        · exact ⟨d', hm, (cAddOne_bad_iff st st1 d d' nm item h).mpr hb⟩

theorem cAddList_preserves_item (ds : List Nat) (st st' : St) (nm : String)
    (item d : Nat) (h : cAddList ds st nm item = some st')
    (hit : dictFind (getDict st d) nm = some item) :
    dictFind (getDict st' d) nm = some item := by
  induction ds generalizing st with
  | nil => rw [cAddList] at h; injection h with h; subst h; exact hit
  | cons e ds ih =>
    rw [cAddList] at h
    cases he : cAddOne st e nm item with
    | none => rw [he] at h; exact absurd h (by simp)
    | some st1 =>
      rw [he] at h
      exact ih st1 h (cAddOne_preserves_item st st1 e d nm item he hit)

theorem cAddList_post (ds : List Nat) (st st' : St) (nm : String) (item : Nat)
    (h : cAddList ds st nm item = some st') :
    ∀ d ∈ ds, d < st.dicts.length → dictFind (getDict st' d) nm = some item := by
  induction ds generalizing st with
  | nil => simp
  | cons e ds ih =>
    rw [cAddList] at h
    cases he : cAddOne st e nm item with
    | none => rw [he] at h; exact absurd h (by simp)
    | some st1 =>
      rw [he] at h
      intro d hm hlen
      rcases List.mem_cons.mp hm with rfl | hm
      · exact cAddList_preserves_item ds st1 st' nm item d h
          (cAddOne_post st st1 d nm item hlen he)
      · exact ih st1 h d hm
          (by rw [(cAddOne_some_parts st st1 e nm item he).1]; exact hlen)

theorem mem_selDicts (c : Constraints) (deptypes : List Nat) (d : Nat) :
    d ∈ selDicts c deptypes ↔
      ((RUN ∈ deptypes ∧ d = c.run) ∨ (LINK ∈ deptypes ∧ d = c.link) ∨
        (BUILD ∈ deptypes ∧ d = c.build)) := by
  unfold selDicts
  by_cases hR : RUN ∈ deptypes <;> by_cases hL : LINK ∈ deptypes <;>
    by_cases hB : BUILD ∈ deptypes <;> simp [hR, hL, hB]

end AddLemmas

/-! ### Heights of the fixtures -/

section HeightLemmas

theorem pkgHeight_g1_le : pkgHeight g1 ≤ 6 := by
  simp [g1, pkgHeight, pkgHeightList]

theorem pkgHeight_g2_le : pkgHeight g2 ≤ 6 := by
  simp [g2, pkgHeight, pkgHeightList]

theorem pkgHeight_g1rev_le : pkgHeight g1rev ≤ 6 := by
  simp [g1rev, pkgHeight, pkgHeightList]

theorem pkgHeight_g2rev_le : pkgHeight g2rev ≤ 6 := by
  simp [g2rev, pkgHeight, pkgHeightList]

theorem pkgHeight_cexP1_le : pkgHeight cexP1 ≤ 6 := by
  simp [cexP1, cexA, cexB, cexC, cexX, pkgHeight, pkgHeightList]

theorem pkgHeight_cexP2_le : pkgHeight cexP2 ≤ 6 := by
  simp [cexP2, cexA, cexB, cexC, cexX, pkgHeight, pkgHeightList]

end HeightLemmas

theorem getD_concat_self {α : Type} (l : List α) (x d : α) :
    (l ++ [x]).getD l.length d = x := by
  rw [List.getD_eq_getElem?_getD, List.getElem?_append_right (le_refl _)]
  simp

theorem getD_concat3_self (l : List Dict) :
    (((l ++ [[]]) ++ [[]]) ++ [[]]).getD (l.length + 2) [] = ([] : Dict) := by
  rw [List.getD_eq_getElem?_getD, List.getElem?_append_right (by simp)]
  simp

/-! ### Claims -/

/-- C3: `lookup(name, edgeTypes)` on a Constraint Set consults the
categories in the fixed priority order RUN, LINK, BUILD and returns the
Node stored in the first category that is both contained in `edgeTypes`
and has an entry for `name`; if no category satisfies both conditions it
returns absent, and it never combines or falls through to a later
category once one matches: `cGet` (from the code) coincides with
`lookupSpec` (from the spec) on every state, constraint set, name and
edge-type list. -/
theorem cGet_matches_lookupSpec (st : St) (c : Constraints) (name : String)
    (edgeTypes : List Nat) :
    cGet st c name edgeTypes = lookupSpec st c name edgeTypes := by
  unfold cGet lookupSpec
  by_cases hR : RUN ∈ edgeTypes <;> by_cases hL : LINK ∈ edgeTypes <;>
    by_cases hB : BUILD ∈ edgeTypes <;>
      cases hr : dictFind (getDict st c.run) name <;>
        cases hl : dictFind (getDict st c.link) name <;>
          cases hb : dictFind (getDict st c.build) name <;>
            simp [hR, hL, hB, hr, hl, hb]

/-- C6: LINK sharing is transitive up to the root scope: in the merged
graph of fixture `g1`, `graph['p8']['p9']['p11']` is the identical Node
as `graph['p8']['p10']['p11']`, and both are the identical Node as
`graph['p11']`. -/
theorem link_transitive_sharing_g1 :
    resAt g1Res ["p8", "p9", "p11"] = resAt g1Res ["p8", "p10", "p11"] ∧
    resAt g1Res ["p8", "p9", "p11"] = resAt g1Res ["p11"] ∧
    (resAt g1Res ["p11"]).isSome = true := by
  unfold g1Res
  simp only [resAt_run_eq g1 6 pkgHeight_g1_le]
  decide

/-- C7: a BUILD-scoped dependency's own LINK dependencies are not unified
with the enclosing LINK scope: in the merged graph of fixture `g1`,
`graph['p8']['p12']['p9']` is a different Node object than
`graph['p8']['p9']`. -/
theorem build_scope_link_not_unified_g1 :
    resAt g1Res ["p8", "p12", "p9"] ≠ resAt g1Res ["p8", "p9"] ∧
    (resAt g1Res ["p8", "p12", "p9"]).isSome = true ∧
    (resAt g1Res ["p8", "p9"]).isSome = true := by
  unfold g1Res
  simp only [resAt_run_eq g1 6 pkgHeight_g1_le]
  decide

/-- C8: two same-named, structurally identical packages resolved under
disjoint Constraint Set lineages produce distinct Node objects: in
fixture `g1`, `graph['p8']['p12']['p7']` is not the identical Node as
`graph['p5']['p7']`. -/
theorem same_name_distinct_scopes_g1 :
    resAt g1Res ["p8", "p12", "p7"] ≠ resAt g1Res ["p5", "p7"] ∧
    (resAt g1Res ["p8", "p12", "p7"]).isSome = true ∧
    (resAt g1Res ["p5", "p7"]).isSome = true := by
  unfold g1Res
  simp only [resAt_run_eq g1 6 pkgHeight_g1_le]
  decide

/-- C2: in `dep_dag`, `shared_run` is aliased to the parent's run mapping
if and only if at least one dependency of the package carries both RUN
and BUILD edge types simultaneously; otherwise it is a fresh empty dict;
a child reached with BUILD but not RUN gets `c.run = shared_run`; and in
fixture `g2` (where `p3` has edge types RUN and BUILD),
`graph['p6']['p4']` is the identical Node as `graph['p5']['p4']`. -/
theorem sharedRun_alias_characterization (pc : Constraints)
    (deps : List (Package × List Nat)) (st : St) (h : pc.run < st.dicts.length) :
    ((computeSharedRun pc deps st).1 = pc.run ↔
      ∃ pd ∈ deps, RUN ∈ pd.2 ∧ BUILD ∈ pd.2) ∧
    ((¬∃ pd ∈ deps, RUN ∈ pd.2 ∧ BUILD ∈ pd.2) →
      getDict (computeSharedRun pc deps st).2 (computeSharedRun pc deps st).1 = []) ∧
    (∀ deptypes sharedRun, RUN ∉ deptypes → BUILD ∈ deptypes →
      (childConstraints st pc sharedRun deptypes).1.run = sharedRun) ∧
    resAt g2Res ["p6", "p4"] = resAt g2Res ["p5", "p4"] ∧
    (resAt g2Res ["p6", "p4"]).isSome = true := by
  have hany : (deps.any fun pd => decide (RUN ∈ pd.2 ∧ BUILD ∈ pd.2)) = true ↔
      ∃ pd ∈ deps, RUN ∈ pd.2 ∧ BUILD ∈ pd.2 := by
    simp [List.any_eq_true]
  refine ⟨?_, ?_, ?_, ?_, ?_⟩
  · unfold computeSharedRun allocDict
    rcases hb : deps.any fun pd => decide (RUN ∈ pd.2 ∧ BUILD ∈ pd.2)
    · simp only [hb, Bool.false_eq_true, if_false]
      refine iff_of_false (by omega) fun he => ?_
      rw [hany.mpr he] at hb
      exact Bool.noConfusion hb
    · simp only [hb, if_true, eq_self_iff_true, true_iff]
      exact hany.mp hb
  · intro hno
    unfold computeSharedRun allocDict
    have hc : (deps.any fun pd => decide (RUN ∈ pd.2 ∧ BUILD ∈ pd.2)) = false := by
      rcases hb : deps.any fun pd => decide (RUN ∈ pd.2 ∧ BUILD ∈ pd.2)
      · rfl
      · exact absurd (hany.mp hb) hno
    simp only [hc, Bool.false_eq_true, if_false]
    exact getD_concat_self st.dicts [] []
  · intro deptypes sharedRun hR hB
    simp [childConstraints, hR, hB]
    by_cases hL : LINK ∈ deptypes <;> simp [hL]
  · unfold g2Res
    simp only [resAt_run_eq g2 6 pkgHeight_g2_le]
    decide
  · unfold g2Res
    simp only [resAt_run_eq g2 6 pkgHeight_g2_le]
    decide

/-- C2 witness: the characterization applied to the root constraint set
`⟨0, 1, 2⟩` over a three-dict heap and the deps list of fixture `g2`'s
root package. -/
theorem sharedRun_alias_characterization_witness :
    (((computeSharedRun ⟨0, 1, 2⟩ g2.deps ⟨[[], [], []], []⟩).1 = 0 ↔
      ∃ pd ∈ g2.deps, RUN ∈ pd.2 ∧ BUILD ∈ pd.2) ∧
    ((¬∃ pd ∈ g2.deps, RUN ∈ pd.2 ∧ BUILD ∈ pd.2) →
      getDict (computeSharedRun ⟨0, 1, 2⟩ g2.deps ⟨[[], [], []], []⟩).2
        (computeSharedRun ⟨0, 1, 2⟩ g2.deps ⟨[[], [], []], []⟩).1 = []) ∧
    (∀ deptypes sharedRun, RUN ∉ deptypes → BUILD ∈ deptypes →
      (childConstraints ⟨[[], [], []], []⟩ ⟨0, 1, 2⟩ sharedRun deptypes).1.run =
        sharedRun) ∧
    resAt g2Res ["p6", "p4"] = resAt g2Res ["p5", "p4"] ∧
    (resAt g2Res ["p6", "p4"]).isSome = true) :=
  sharedRun_alias_characterization ⟨0, 1, 2⟩ g2.deps ⟨[[], [], []], []⟩ (by decide)

/-- C4: `record(node, edgeTypes)` (`Constraints.add`), for each category
among RUN, LINK, BUILD appearing in `edgeTypes` (the `selDicts`
selection), fails (the `assert`) if and only if some such category
already maps `node.name` to a Node that is not the identical object, and
after a successful call every category in `edgeTypes` maps `node.name` to
the node itself. -/
theorem cAdd_insert_or_assert (st : St) (c : Constraints) (item : Nat)
    (deptypes : List Nat) (hr : c.run < st.dicts.length)
    (hl : c.link < st.dicts.length) (hb : c.build < st.dicts.length) :
    (∀ d, d ∈ selDicts c deptypes ↔
      ((RUN ∈ deptypes ∧ d = c.run) ∨ (LINK ∈ deptypes ∧ d = c.link) ∨
        (BUILD ∈ deptypes ∧ d = c.build))) ∧
    (cAdd st c item deptypes = none ↔
      ∃ d ∈ selDicts c deptypes, ∃ v,
        dictFind (getDict st d) (nodeName st item) = some v ∧ v ≠ item) ∧
    (∀ st', cAdd st c item deptypes = some st' →
      ∀ d ∈ selDicts c deptypes,
        dictFind (getDict st' d) (nodeName st item) = some item) := by
  refine ⟨mem_selDicts c deptypes, ?_, ?_⟩
  · exact cAddList_none_iff (selDicts c deptypes) st (nodeName st item) item
  · intro st' h d hd
    refine cAddList_post (selDicts c deptypes) st st' (nodeName st item) item h d hd ?_
    rcases (mem_selDicts c deptypes d).mp hd with ⟨_, rfl⟩ | ⟨_, rfl⟩ | ⟨_, rfl⟩ <;>
      assumption

/-- C4 witness: the characterization applied to a constraint set over a
three-dict heap, one node named `"x"`, and edge types `[RUN, LINK]`. -/
theorem cAdd_insert_or_assert_witness :
    ((∀ d, d ∈ selDicts ⟨0, 1, 2⟩ [RUN, LINK] ↔
      ((RUN ∈ [RUN, LINK] ∧ d = Constraints.run ⟨0, 1, 2⟩) ∨
        (LINK ∈ [RUN, LINK] ∧ d = Constraints.link ⟨0, 1, 2⟩) ∨
        (BUILD ∈ [RUN, LINK] ∧ d = Constraints.build ⟨0, 1, 2⟩))) ∧
    (cAdd ⟨[[], [], []], [⟨"x", []⟩]⟩ ⟨0, 1, 2⟩ 0 [RUN, LINK] = none ↔
      ∃ d ∈ selDicts ⟨0, 1, 2⟩ [RUN, LINK], ∃ v,
        dictFind (getDict ⟨[[], [], []], [⟨"x", []⟩]⟩ d)
          (nodeName ⟨[[], [], []], [⟨"x", []⟩]⟩ 0) = some v ∧ v ≠ 0) ∧
    (∀ st', cAdd ⟨[[], [], []], [⟨"x", []⟩]⟩ ⟨0, 1, 2⟩ 0 [RUN, LINK] = some st' →
      ∀ d ∈ selDicts ⟨0, 1, 2⟩ [RUN, LINK],
        dictFind (getDict st' d) (nodeName ⟨[[], [], []], [⟨"x", []⟩]⟩ 0) = some 0)) :=
  cAdd_insert_or_assert ⟨[[], [], []], [⟨"x", []⟩]⟩ ⟨0, 1, 2⟩ 0 [RUN, LINK]
    (by decide) (by decide) (by decide)

/-- C5: when `dep_dag` builds the child Constraint Set for a dependency
not found by lookup, `c.link` equals (is aliased to) the parent's link
mapping exactly when LINK is among the edge types, regardless of the
other edge types, and `c.build` is a fresh empty dict in every case, so
build-category sharing is never propagated into a recursive
resolution. -/
theorem childConstraints_link_and_build (st : St) (pc : Constraints)
    (sharedRun : Nat) (deptypes : List Nat) (hl : pc.link < st.dicts.length) :
    ((childConstraints st pc sharedRun deptypes).1.link = pc.link ↔
      LINK ∈ deptypes) ∧
    getDict (childConstraints st pc sharedRun deptypes).2
      (childConstraints st pc sharedRun deptypes).1.build = [] := by
  have hbuild : (childConstraints st pc sharedRun deptypes).1.build =
      st.dicts.length + 2 := by
    unfold childConstraints newConstraints allocDict
    by_cases hR : RUN ∈ deptypes <;> by_cases hB : BUILD ∈ deptypes <;>
      by_cases hL : LINK ∈ deptypes <;> simp [hR, hB, hL]
  have hdicts : (childConstraints st pc sharedRun deptypes).2 =
      ⟨((st.dicts ++ [[]]) ++ [[]]) ++ [[]], st.nodes⟩ := by
    unfold childConstraints newConstraints allocDict
    rfl
  refine ⟨?_, ?_⟩
  · unfold childConstraints newConstraints allocDict
    by_cases hR : RUN ∈ deptypes <;> by_cases hB : BUILD ∈ deptypes <;>
      by_cases hL : LINK ∈ deptypes <;> simp [hR, hB, hL] <;> omega
  · rw [hbuild, hdicts]
    have h2 : st.dicts.length + 2 = (((st.dicts ++ [[]]) ++ [[]])).length := by simp
    unfold getDict
    rw [h2]
    exact getD_concat_self _ [] []

/-- C5 witness: the link/build behaviour of the child constraint set at
the root constraint set `⟨0, 1, 2⟩` over a three-dict heap with edge
types `[LINK]`. -/
theorem childConstraints_link_and_build_witness :
    (((childConstraints ⟨[[], [], []], []⟩ ⟨0, 1, 2⟩ 7 [LINK]).1.link = 1 ↔
      LINK ∈ [LINK]) ∧
    getDict (childConstraints ⟨[[], [], []], []⟩ ⟨0, 1, 2⟩ 7 [LINK]).2
      (childConstraints ⟨[[], [], []], []⟩ ⟨0, 1, 2⟩ 7 [LINK]).1.build = []) :=
  childConstraints_link_and_build ⟨[[], [], []], []⟩ ⟨0, 1, 2⟩ 7 [LINK] (by decide)

/-- C9: for every finite package tree and every constraint set and heap,
`dep_dag` terminates: the fuel-indexed recursion `depDagF`, which
manifestly recurses only into strict children spending one unit of fuel
per level, never exhausts any fuel bounding the tree height and computes
exactly the total function `depDag`, even though the produced output may
be a DAG with shared nodes. -/
theorem dep_dag_terminates (fuel : Nat) (pkg : Package) (pc : Constraints)
    (st : St) (h : pkgHeight pkg ≤ fuel) :
    depDagF fuel pkg pc st = some (depDag pkg pc st) :=
  depDagF_eq_depDag fuel pkg pc st h

/-- C9 witness: termination on fixture `g1` from the root constraint set
with fuel 6. -/
theorem dep_dag_terminates_witness :
    depDagF 6 g1 ⟨0, 1, 2⟩ ⟨[[], [], []], []⟩ =
      some (depDag g1 ⟨0, 1, 2⟩ ⟨[[], [], []], []⟩) :=
  dep_dag_terminates 6 g1 ⟨0, 1, 2⟩ ⟨[[], [], []], []⟩
    (by simp [g1, pkgHeight, pkgHeightList])

/-- C10: for a package with no dependency carrying both RUN and BUILD,
all BUILD-only children are resolved against one single shared,
initially-empty run scope: `shared_run` is a fresh empty dict distinct
from the parent's run dict, every BUILD-only child's constraint set gets
exactly that dict as its run reference, and in fixture `g1`,
`graph['p5']['p7']` is the identical Node as `graph['p6']['p7']`. -/
theorem build_only_shared_run_scope (pc : Constraints)
    (deps : List (Package × List Nat)) (st : St) (h : pc.run < st.dicts.length)
    (hno : ¬∃ pd ∈ deps, RUN ∈ pd.2 ∧ BUILD ∈ pd.2) :
    (computeSharedRun pc deps st).1 ≠ pc.run ∧
    getDict (computeSharedRun pc deps st).2 (computeSharedRun pc deps st).1 = [] ∧
    (∀ deptypes sharedRun, BUILD ∈ deptypes → RUN ∉ deptypes →
      (childConstraints st pc sharedRun deptypes).1.run = sharedRun) ∧
    resAt g1Res ["p5", "p7"] = resAt g1Res ["p6", "p7"] ∧
    (resAt g1Res ["p5", "p7"]).isSome = true := by
  have hany : (deps.any fun pd => decide (RUN ∈ pd.2 ∧ BUILD ∈ pd.2)) = false := by
    rcases hb : deps.any fun pd => decide (RUN ∈ pd.2 ∧ BUILD ∈ pd.2)
    · rfl
    · exact absurd ((by simpa [List.any_eq_true] using hb :
        ∃ pd ∈ deps, RUN ∈ pd.2 ∧ BUILD ∈ pd.2)) hno
  refine ⟨?_, ?_, ?_, ?_, ?_⟩
  · unfold computeSharedRun allocDict
    simp only [hany, Bool.false_eq_true, if_false]
    omega
  · unfold computeSharedRun allocDict
    simp only [hany, Bool.false_eq_true, if_false]
    exact getD_concat_self st.dicts [] []
  · intro deptypes sharedRun hB hR
    simp [childConstraints, hR, hB]
    by_cases hL : LINK ∈ deptypes <;> simp [hL]
  · unfold g1Res
    simp only [resAt_run_eq g1 6 pkgHeight_g1_le]
    decide
  · unfold g1Res
    simp only [resAt_run_eq g1 6 pkgHeight_g1_le]
    decide

/-- C10 witness: the shared BUILD-only run scope at the root constraint
set `⟨0, 1, 2⟩` over a three-dict heap and the deps list of fixture
`g1`'s root package (none of whose dependencies carries RUN and BUILD
together). -/
theorem build_only_shared_run_scope_witness :
    ((computeSharedRun ⟨0, 1, 2⟩ g1.deps ⟨[[], [], []], []⟩).1 ≠ 0 ∧
    getDict (computeSharedRun ⟨0, 1, 2⟩ g1.deps ⟨[[], [], []], []⟩).2
      (computeSharedRun ⟨0, 1, 2⟩ g1.deps ⟨[[], [], []], []⟩).1 = [] ∧
    (∀ deptypes sharedRun, BUILD ∈ deptypes → RUN ∉ deptypes →
      (childConstraints ⟨[[], [], []], []⟩ ⟨0, 1, 2⟩ sharedRun deptypes).1.run =
        sharedRun) ∧
    resAt g1Res ["p5", "p7"] = resAt g1Res ["p6", "p7"] ∧
    (resAt g1Res ["p5", "p7"]).isSome = true) :=
  build_only_shared_run_scope ⟨0, 1, 2⟩ g1.deps ⟨[[], [], []], []⟩ (by decide)
    (by decide)

/-- C1 counterexample: iteration order over a package's deps mapping can
change the sharing pattern of the merged structure.  `cexP1` and `cexP2`
are the same package tree up to a permutation of the root's deps mapping
(three same-named leaf dependencies reached by RUN, LINK, and RUN+LINK
respectively), yet in the output for `cexP1` the paths `A.x` and `B.x`
reach different Nodes while in the output for `cexP2` they reach the
identical Node. -/
theorem iteration_order_affects_sharing :
    cexP1.deps = [(cexA, [RUN]), (cexB, [LINK]), (cexC, [RUN, LINK])] ∧
    cexP2.deps = [(cexC, [RUN, LINK]), (cexB, [LINK]), (cexA, [RUN])] ∧
    (resAt (runDepDag cexP1) ["A", "x"]).isSome = true ∧
    (resAt (runDepDag cexP1) ["B", "x"]).isSome = true ∧
    ¬(resAt (runDepDag cexP1) ["A", "x"] = resAt (runDepDag cexP1) ["B", "x"] ↔
      resAt (runDepDag cexP2) ["A", "x"] = resAt (runDepDag cexP2) ["B", "x"]) := by
  refine ⟨rfl, rfl, ?_, ?_, ?_⟩ <;>
    simp only [resAt_run_eq cexP1 6 pkgHeight_cexP1_le,
      resAt_run_eq cexP2 6 pkgHeight_cexP2_le] <;>
    decide

set_option maxHeartbeats 4000000 in
/-- C1 amended: iteration order can affect the sharing pattern in
general (see the counterexample), but for the reference fixtures `g1`
and `g2`, iterating every package's deps mapping in reversed order
produces the same merged structure: the canonically renamed output
graphs (names, shapes and sharing pattern) coincide. -/
theorem iteration_order_reversal_fixtures :
    revPkg g1 = g1rev ∧ revPkg g2 = g2rev ∧
    canonGraph (runDepDag g1) = canonGraph (runDepDag g1rev) ∧
    canonGraph (runDepDag g2) = canonGraph (runDepDag g2rev) ∧
    (canonGraph (runDepDag g1)).isSome = true ∧
    (canonGraph (runDepDag g2)).isSome = true := by
  refine ⟨?_, ?_, ?_, ?_, ?_, ?_⟩
  · simp [g1, g1rev, revPkg, revDepsList]
  · simp [g2, g2rev, revPkg, revDepsList]
  · rw [canon_run_eq g1 6 pkgHeight_g1_le, canon_run_eq g1rev 6 pkgHeight_g1rev_le]
    decide
  · rw [canon_run_eq g2 6 pkgHeight_g2_le, canon_run_eq g2rev 6 pkgHeight_g2rev_le]
    decide
  · rw [canon_run_eq g1 6 pkgHeight_g1_le]
    decide
  · rw [canon_run_eq g2 6 pkgHeight_g2_le]
    decide

end Depres
